import Mathlib

/-!
Shallow embedding of the LAP Excel-to-CSV pipeline
(`src/scripts/process_lap_excels.py`) and proofs about its stages.

A table is a header (`List String`) together with rows
(`List (List String)`), matching the CSV representation the script reads
with `csv.reader`.  Interactive console prompts are modelled by an oracle
supplying the (already validated) answers the retry loops would have
produced; the process-wide decision memory is threaded explicitly.  Python
exceptions (IndexError, ValueError, KeyError) are modelled with
`Except String`.
-/

namespace LAP

/-- Python `str.strip()` on ASCII-ish text: drop leading and trailing whitespace. -/
def pyStripChars (cs : List Char) : List Char :=
  ((cs.dropWhile Char.isWhitespace).reverse.dropWhile Char.isWhitespace).reverse

/-- Python `value.strip()`. -/
def pyStrip (s : String) : String :=
  String.mk (pyStripChars s.toList)

/-- Python `s.lower()`. -/
def pyLower (s : String) : String :=
  String.mk (s.toList.map Char.toLower)

/-- The expression `''.join(c if c.isalnum() else '_' for c in h)` — the final
character-level sanitization in `sanitize_csv_column_names`. -/
def sanitizeChars (s : String) : String :=
  String.mk (s.toList.map (fun c => if c.isAlphanum then c else '_'))

/-- The spec's notion of an identifier-safe header entry: non-empty,
lowercase, only alphanumerics and underscores, not starting with a digit. -/
def identifierSafe (s : String) : Bool :=
  !s.toList.isEmpty
    && s.toList.all (fun c => (c.isAlphanum || c == '_') && !c.isUpper)
    && !(s.toList.headD '_').isDigit

/-- The list `ALLOWED_COLUMN_NAMES`, the controlled vocabulary
(process_lap_excels.py lines 14-23). -/
def ALLOWED_COLUMN_NAMES : List String :=
  ["informant", "response", "comments", "phonetic_transcription",
   "project", "page", "line", "filename"]

/-- Python list indexing `l[i]`, including negative indices
(`l[-1]` is the last element).  Total with default `""`; every use in the
development stays within Python's legal range. -/
def pyIndex (l : List String) (i : Int) : String :=
  if 0 ≤ i then l.getD i.toNat ""
  else l.getD (l.length - (-i).toNat) ""

/-! ### Python dict model

`csv.DictReader` rows, `row | metadata` merges and the decision memory are
Python dicts: insertion-ordered association lists where assigning to an
existing key updates it in place and a new key is appended at the end. -/

/-- Assignment `d[k] = v` on a Python dict. -/
def dictInsert (d : List (String × α)) (k : String) (v : α) : List (String × α) :=
  if d.any (fun p => p.1 == k) then
    d.map (fun p => if p.1 == k then (k, v) else p)
  else d ++ [(k, v)]

/-- Lookup `d.get(k)` / the test `k in d`. -/
def dictGet (d : List (String × α)) (k : String) : Option α :=
  (d.find? (fun p => p.1 == k)).map Prod.snd

/-- Lookup `d.get(k, dflt)`. -/
def dictGetD (d : List (String × α)) (k : String) (dflt : α) : α :=
  (dictGet d k).getD dflt

/-- The keys `list(d.keys())` (insertion order). -/
def dictKeys (d : List (String × α)) : List String :=
  d.map Prod.fst

/-- Constructor `dict(pairs)`: build a Python dict from pairs, later keys overriding. -/
def dictOfPairs (ps : List (String × α)) : List (String × α) :=
  ps.foldl (fun d p => dictInsert d p.1 p.2) []

/-- The dict a `csv.DictReader` builds for one data row whose length equals
the header's: `dict(zip(fieldnames, row))`. -/
def dictOfZip (header : List String) (r : List String) : List (String × String) :=
  dictOfPairs (header.zip r)

/-! ### Decision memory and the user oracle

`remembered_enforced_column_name_changes : dict[str, int]` (line 24) maps a
raw header string to the `number` the user chose in the vocabulary menu
(`-1` encodes "0. DISCARD THIS COLUMN").  Console prompts are modelled by
an oracle giving, per prompt, the answer the input-validation retry loop
would eventually accept. -/

abbrev Memory := List (String × Int)

/-- One deterministic user for a `sanitize_csv_column_names` run.  Each
field answers one kind of prompt, keyed by the column index or the name the
code shows at that prompt. -/
structure SanitizeOracle where
  /-- Answer to "Please confirm if these are headers" (`assume_headers` off). -/
  headersConfirmed : Bool
  /-- Rename (`true`) or discard (`false`) column `i` after rejecting the
  first row as headers. -/
  initialRename : Nat → Bool
  /-- The validated identifier the user supplies (and confirms) in
  `verify_new_column_name` when `enforce` is off. -/
  freeName : String → String
  /-- The validated `number` (`int(input(...)) - 1`, in `range(-1, 8)`)
  chosen in the vocabulary menu for a disallowed name. -/
  vocabNumber : String → Int
  /-- Answer to "Remember this decision?". -/
  vocabRemember : String → Bool
  /-- Rename (`true`) or discard (`false`) a column whose name starts with
  a digit. -/
  digitRename : String → Bool
  /-- Rename (`true`) or discard (`false`) a column whose sanitized header
  is empty. -/
  emptyRename : Nat → Bool

/-- Model of `verify_new_column_name(enforce, original_column_name)` (lines 54-117),
with the decision memory threaded explicitly.  With `enforce`: a remembered
name returns `ALLOWED_COLUMN_NAMES[remembered[...]]` (Python indexing, so a
remembered `-1` hits the *last* vocabulary entry); otherwise the user picks
`number`, optionally records it, and the call returns
`ALLOWED_COLUMN_NAMES[number]`, or `''` for the discard choice `-1`. -/
def verifyNewColumnName (o : SanitizeOracle) (enforce : Bool)
    (originalColumnName : String) (mem : Memory) : String × Memory :=
  if enforce then
    match dictGet mem originalColumnName with
    | some n => (pyIndex ALLOWED_COLUMN_NAMES n, mem)
    | none =>
        let number := o.vocabNumber originalColumnName
        let mem' := if o.vocabRemember originalColumnName then
            dictInsert mem originalColumnName number
          else mem
        (if number ≠ -1 then pyIndex ALLOWED_COLUMN_NAMES number else "", mem')
  else (o.freeName originalColumnName, mem)

/-- The data accesses of `print_column_sample(rows, column_index)`
(lines 120-133): collect up to `need` non-empty entries of the column,
walking the rows; `rows[row_index][column_index]` on a row that is too
short raises IndexError. -/
def sampleGo (idx : Nat) : List (List String) → Nat → Except String (List String)
  | _, 0 => Except.ok []
  | [], _ + 1 => Except.ok []
  | r :: rs, need + 1 =>
      match r.get? idx with
      | none => Except.error "IndexError"
      | some e =>
          if e == "" then sampleGo idx rs (need + 1)
          else (sampleGo idx rs need).map (fun t => e :: t)

/-- Model of `print_column_sample`: `num_sample_entries = min(12, len(rows))`. -/
def columnSample (rows : List (List String)) (idx : Nat) :
    Except String (List String) :=
  sampleGo idx rows (min 12 rows.length)

/-- Python `l.pop(i)`: IndexError out of range. -/
def pyPop (l : List α) (i : Nat) : Except String (List α) :=
  if i < l.length then Except.ok (l.eraseIdx i) else Except.error "IndexError"

/-- Insertion step for `sorted`. -/
def insertSorted (n : Nat) : List Nat → List Nat
  | [] => [n]
  | m :: ms => if n ≤ m then n :: m :: ms else m :: insertSorted n ms

/-- Python `sorted(l)` for the discarded-index list. -/
def sortNat (l : List Nat) : List Nat := l.foldr insertSorted []

/-! ### Header Sanitizer (`sanitize_csv_column_names`, lines 162-272) -/

/-- Lines 186-211: the first row was rejected as a header, so it is already
reinserted into `rows`; for every original column index the user reviews a
sample and either supplies a name (appended to the new header list) or
discards the column (index recorded).  Returns
(new headers, discarded indices, memory). -/
def initialHeaderPass (o : SanitizeOracle) (enforce : Bool)
    (headers0 : List String) (rows : List (List String)) (mem : Memory) :
    Except String (List String × List Nat × Memory) :=
  (List.range headers0.length).foldlM
    (fun st i => do
      let _ ← columnSample rows i
      if o.initialRename i then
        let (nm, mem') := verifyNewColumnName o enforce (headers0.getD i "") st.2.2
        pure (st.1 ++ [nm], st.2.1, mem')
      else
        pure (st.1, st.2.1 ++ [i], st.2.2))
    (([] : List String), ([] : List Nat), mem)

/-- State of the per-column loop of lines 213-241. -/
structure ColState where
  sanitized : List String
  emptyIdx : List Nat
  discarded : List Nat
  mem : Memory

/-- One iteration of the per-column loop (lines 216-241): skip an already
discarded index; strip and lowercase the header; defer an empty name, run
vocabulary resolution on a disallowed name under `enforce_headers`, or
handle a digit-initial name; finally character-sanitize and append. -/
def processColumn (o : SanitizeOracle) (destructive enforce : Bool)
    (st : ColState) (i : Nat) (header : String) : ColState :=
  if st.discarded.contains i then st
  else
    let h := pyLower (pyStrip header)
    if h == "" then
      { st with sanitized := st.sanitized ++ [sanitizeChars h],
                emptyIdx := st.emptyIdx ++ [i] }
    else if !(ALLOWED_COLUMN_NAMES.contains h) && enforce then
      let (h', mem') := verifyNewColumnName o enforce h st.mem
      { st with sanitized := st.sanitized ++ [sanitizeChars h'], mem := mem' }
    else if (h.toList.headD ' ').isDigit then
      let rename := if destructive then false else o.digitRename h
      if rename then
        let (h', mem') := verifyNewColumnName o enforce h st.mem
        { st with sanitized := st.sanitized ++ [sanitizeChars h'], mem := mem' }
      else
        { st with sanitized := st.sanitized ++ [sanitizeChars h],
                  discarded := st.discarded ++ [i] }
    else
      { st with sanitized := st.sanitized ++ [sanitizeChars h] }

/-- Lines 243-262: the empty-header resolution pass.  For each deferred
index the user (or `discard_empty`) discards the column or renames it,
where renaming reads and reassigns `sanitized_headers[column_index]`
(IndexError if the list is shorter). -/
def emptyHeaderPass (o : SanitizeOracle) (discardEmpty enforce : Bool)
    (rows : List (List String)) (emptyIdx : List Nat)
    (sanitized : List String) (discarded : List Nat) (mem : Memory) :
    Except String (List String × List Nat × Memory) :=
  emptyIdx.foldlM
    (fun st i => do
      let rename ←
        if discardEmpty then pure false
        else do
          let _ ← columnSample rows i
          pure (o.emptyRename i)
      if rename then
        match st.1.get? i with
        | none => Except.error "IndexError"
        | some orig =>
            let (nm, mem') := verifyNewColumnName o enforce orig st.2.2
            pure (st.1.set i nm, st.2.1, mem')
      else
        pure (st.1, st.2.1 ++ [i], st.2.2))
    (sanitized, discarded, mem)

/-- Lines 264-267: pop every discarded index, in descending order, from the
sanitized header and from every row. -/
def removalPass (discarded : List Nat) (sanitized : List String)
    (rows : List (List String)) :
    Except String (List String × List (List String)) :=
  (sortNat discarded).reverse.foldlM
    (fun (st : List String × List (List String)) ci => do
      let s' ← pyPop st.1 ci
      let rows' ← st.2.mapM (fun r => pyPop r ci)
      pure (s', rows'))
    (sanitized, rows)

/-- Model of `sanitize_csv_column_names(csv_filename, destructive, discard_empty,
assume_headers, enforce_headers)` on a table already read from the file,
returning the rewritten table and the updated decision memory. -/
def sanitizeCsvColumnNames (o : SanitizeOracle)
    (destructive discardEmpty assumeHeaders enforceHeaders : Bool)
    (headers0 : List String) (rows0 : List (List String)) (mem0 : Memory) :
    Except String ((List String × List (List String)) × Memory) := do
  let (headers, rows, discarded0, mem1) ←
    if assumeHeaders || o.headersConfirmed then
      pure (headers0, rows0, ([] : List Nat), mem0)
    else do
      let rows := headers0 :: rows0
      let (newHeaders, discarded, mem1) ←
        initialHeaderPass o enforceHeaders headers0 rows mem0
      pure (newHeaders, rows, discarded, mem1)
  let cst := headers.enum.foldl
    (fun st (p : Nat × String) =>
      processColumn o destructive enforceHeaders st p.1 p.2)
    ⟨[], [], discarded0, mem1⟩
  let (sanitized2, discarded2, mem2) ←
    emptyHeaderPass o discardEmpty enforceHeaders rows cst.emptyIdx
      cst.sanitized cst.discarded cst.mem
  let (finalHeaders, finalRows) ← removalPass discarded2 sanitized2 rows
  pure ((finalHeaders, finalRows), mem2)

/-! ### Row Pruner (`prune_empty_csv_rows`, lines 275-289) -/

/-- The comprehension `[row for row in reader if not all('' == s for s in row)]` applied to
every row of the file, the header line included. -/
def pruneEmptyCsvRows (rows : List (List String)) : List (List String) :=
  rows.filter (fun r => !(r.all (fun s => s == "")))

/-! ### Whitespace Normalizer (`strip_csv_whitespace`, lines 136-159) -/

/-- Strip every cell; all cells of a CSV file are strings, so the
`AttributeError` fallback never fires. -/
def stripCsvWhitespace (rows : List (List String)) : List (List String) :=
  rows.map (fun r => r.map pyStrip)

/-! ### Header Aligner / padding pruner
(`prune_padding_csv_columns`, lines 292-331) -/

/-- The value `len(max((row for row in rows), key=len))`: the maximum row length
(Python `max` on an empty `rows` raises ValueError; the caller guards). -/
def maxRowLen (rows : List (List String)) : Nat :=
  rows.foldl (fun m r => max m r.length) 0

/-- Lines 308-311: pad the header on the right with `''` entries up to the
maximum row length. -/
def padHeaders (header : List String) (rows : List (List String)) :
    List String :=
  header ++ List.replicate (maxRowLen rows - header.length) ""

/-- The inner `for row in rows: if row[column_index] != '': break` loop:
`Except.ok true` when every row is empty at `idx` (the loop ran to its
`else`), `Except.ok false` when some row broke out first, IndexError when a
row is too short before any break. -/
def colScan (idx : Nat) : List (List String) → Except String Bool
  | [] => Except.ok true
  | r :: rs =>
      match r.get? idx with
      | none => Except.error "IndexError"
      | some v => if v == "" then colScan idx rs else Except.ok false

/-- Lines 313-320: the indices of columns that are empty in every row and
whose (padded) header is the empty string. -/
def emptyUnlabeledIndices (header : List String)
    (rows : List (List String)) : Except String (List Nat) :=
  header.enum.foldlM
    (fun acc p => do
      let allEmpty ← colScan p.1 rows
      if allEmpty && p.2 == "" then pure (acc ++ [p.1]) else pure acc)
    ([] : List Nat)

/-- Model of `prune_padding_csv_columns` on a table: pad the header, find the empty
unlabeled columns, and pop those indices in descending order from the
header and from every row. -/
def prunePaddingCsvColumns (header : List String)
    (rows : List (List String)) :
    Except String (List String × List (List String)) := do
  if rows.isEmpty then
    Except.error "ValueError: max() arg is an empty sequence"
  else
    let header' := padHeaders header rows
    let empties ← emptyUnlabeledIndices header' rows
    let newHeader ← empties.reverse.foldlM pyPop header'
    let newRows ← rows.mapM (fun r => empties.reverse.foldlM pyPop r)
    pure (newHeader, newRows)

/-! ### Metadata Appender (`append_metadata_from_filename`, lines 378-430)

The regex engine is the external `re` module; a pattern is modelled by its
named groups and its match function (what `filename_regex.match` returns:
`None`, or the `groupdict()` items). -/

/-- A compiled filename pattern. -/
structure RePattern where
  groupNames : List String
  matchFn : String → Option (List (String × String))

/-- The allowed metadata group names. -/
def allowedMetaKeys : List String := ["project", "page", "line"]

/-- Model of `append_metadata_from_filename`: return the table unchanged when the
filename does not match; otherwise lowercase the group keys, raise KeyError
on a group name outside `{project, page, line}`, and append the metadata
and the `filename` column to the header and (via the dict merge
`row | metadata | {'filename': ...}` and `csv.DictWriter`) to every row. -/
def appendMetadataFromFilename (p : RePattern) (xlsxName : String)
    (header : List String) (rows : List (List String)) :
    Except String (List String × List (List String)) :=
  match p.matchFn xlsxName with
  | none => Except.ok (header, rows)
  | some gd =>
      let metadata := dictOfPairs (gd.map (fun kv => (pyLower kv.1, kv.2)))
      if metadata.any (fun kv => !(allowedMetaKeys.contains kv.1)) then
        Except.error "KeyError"
      else
        let fieldnames := header ++ dictKeys metadata ++ ["filename"]
        let newRows := rows.map (fun r =>
          let d := metadata.foldl (fun d kv => dictInsert d kv.1 kv.2)
            (dictOfZip header r)
          let d := dictInsert d "filename" xlsxName
          fieldnames.map (fun k => dictGetD d k ""))
        Except.ok (fieldnames, newRows)

/-! ### Missing-Value Filler (`fill_in_missing_entries`, lines 433-472) -/

/-- The loop `for header in new_row: allowed_headers.remove(header)` over a
copy of the vocabulary: `list.remove` raises ValueError when the key is not
(or no longer) present. -/
def removeAll (acc : List String) : List String → Except String (List String)
  | [] => Except.ok acc
  | k :: ks =>
      if acc.contains k then removeAll (acc.erase k) ks
      else Except.error "ValueError: list.remove(x): x not in list"

/-- One `try: if new_row[key] == '': new_row[key] = val except KeyError:
pass` block (lines 455-465): a present-but-empty field is overwritten with
the sentinel, an absent field (KeyError) is left alone. -/
def condUpdate (d : List (String × String)) (key val : String) :
    List (String × String) :=
  match dictGet d key with
  | some v => if v == "" then dictInsert d key val else d
  | none => d

/-- Both sentinel blocks: `response` to `"NR"`, then
`phonetic_transcription` to `"see field pages"`. -/
def applySentinels (d : List (String × String)) : List (String × String) :=
  condUpdate (condUpdate d "response" "NR")
    "phonetic_transcription" "see field pages"

/-- The per-row body of `fill_in_missing_entries`: build the DictReader
dict, under `enforce_headers` remove every present key from a vocabulary
copy (ValueError for a foreign key) and add the leftover vocabulary
columns with empty values, apply the sentinels, and let `csv.DictWriter`
(which raises on a field outside its fieldnames) write one cell per
fieldname, `''` for an absent key. -/
def fillRow (enforce : Bool) (fieldnames header : List String)
    (r : List String) : Except String (List String) := do
  let d := dictOfZip header r
  let d ←
    if enforce then do
      let remaining ← removeAll ALLOWED_COLUMN_NAMES (dictKeys d)
      pure (remaining.foldl (fun d h => dictInsert d h "") d)
    else pure d
  let d := applySentinels d
  if d.any (fun kv => !(fieldnames.contains kv.1)) then
    Except.error "ValueError: dict contains fields not in fieldnames"
  else
    pure (fieldnames.map (fun k => dictGetD d k ""))

/-- Model of `fill_in_missing_entries(csv_filename, enforce_headers)` on a table
whose rows each match the header in length (the pipeline shape invariant
`csv.DictReader` relies on here).  With `enforce_headers` the fieldnames
become the whole vocabulary and each row gains every vocabulary column it
lacks, with an empty value; then the sentinels are applied and the rows
are written one cell per fieldname. -/
def fillInMissingEntries (enforce : Bool) (header : List String)
    (rows : List (List String)) :
    Except String (List String × List (List String)) := do
  let fieldnames := if enforce then ALLOWED_COLUMN_NAMES else header
  let newRows ← rows.mapM (fillRow enforce fieldnames header)
  pure (fieldnames, newRows)

/-! ### Corpus Merger (`merge_all_csv_in_dir`, lines 534-579) -/

/-- One CSV file of the input directory, as the merger reads it. -/
structure CsvFile where
  name : String
  header : List String
  rows : List (List String)

/-- Does `text` start with `pat`? -/
def startsWithChars : List Char → List Char → Bool
  | _, [] => true
  | [], _ :: _ => false
  | a :: as, b :: bs => a == b && startsWithChars as bs

/-- Python `pat in text` for strings (substring containment). -/
def containsSeq (text pat : List Char) : Bool :=
  match text with
  | [] => startsWithChars [] pat
  | _ :: rest => startsWithChars text pat || containsSeq rest pat

/-- The test `'merged' in csv_file.name`. -/
def nameContainsMerged (s : String) : Bool :=
  containsSeq s.toList "merged".toList

/-- The value `csv_filenames[0].name.split('_')[0]`: everything before the first
underscore. -/
def mergedBaseName (s : String) : String :=
  String.mk (s.toList.takeWhile (fun c => c != '_'))

/-- The seen-set deduplication of lines 563-567, emitting each header the
first time it is seen. -/
def dedupSeen (seen : List String) : List String → List String
  | [] => []
  | h :: t =>
      if seen.contains h then dedupSeen seen t
      else h :: dedupSeen (h :: seen) t

/-- The list `headers_no_duplicates` for a concatenated header list. -/
def headersNoDuplicates (l : List String) : List String := dedupSeen [] l

/-- Model of `merge_all_csv_in_dir` on the CSV files of the input directory, in glob
order: derive the output name from the *first* filename (IndexError when
the directory holds no CSV at all), drop every file whose name contains
`'merged'`, deduplicate the concatenated headers, and write every
remaining row under the merged header (`csv.DictWriter` leaves absent
columns blank). -/
def mergeAllCsvInDir (files : List CsvFile) :
    Except String (String × List String × List (List String)) :=
  match files with
  | [] => Except.error "IndexError: list index out of range"
  | f0 :: _ =>
      let mergedFilename := mergedBaseName f0.name ++ "_merged.csv"
      let inputs := files.filter (fun f => !nameContainsMerged f.name)
      let mergedHeader :=
        headersNoDuplicates (inputs.map CsvFile.header).flatten
      let outRows := inputs.flatMap (fun f =>
        f.rows.map (fun r =>
          mergedHeader.map (fun k => dictGetD (dictOfZip f.header r) k "")))
      Except.ok (mergedFilename, mergedHeader, outRows)

/-- The spec's "first-occurrence-order deduplication", written the way the spec says
it: keep each element's first occurrence, removing the later ones. -/
def firstOccurrenceDedup (l : List String) : List String :=
  l.foldl (fun acc x => if acc.contains x then acc else acc ++ [x]) []

/-- Closed form of the Missing-Value Filler's effect on one cell: the value
written under fieldname `k` when the row's dict held `v` there (`""` for an
absent key, which with `enforce_headers` was just added as an empty cell). -/
def sentinelValue (k v : String) : String :=
  if k == "response" && v == "" then "NR"
  else if k == "phonetic_transcription" && v == "" then "see field pages"
  else v

/-- A user who, at the vocabulary menu, picks "0. DISCARD THIS COLUMN"
(`number = -1`) for every disallowed name and answers "no" to "Remember
this decision?". -/
def discardForgetOracle : SanitizeOracle :=
  ⟨true, fun _ => true, fun _ => "x", fun _ => -1, fun _ => false,
   fun _ => true, fun _ => true⟩

/-- A user who, at the vocabulary menu, picks "0. DISCARD THIS COLUMN" for
every disallowed name and answers "yes" to "Remember this decision?". -/
def discardRememberOracle : SanitizeOracle :=
  ⟨true, fun _ => true, fun _ => "x", fun _ => -1, fun _ => true,
   fun _ => true, fun _ => true⟩

/-- A user who rejects the first row as headers, discards the first column
and renames the others: `"Page"` to `"b"`, any other to `"c"`. -/
def rejectHeadersOracle : SanitizeOracle :=
  ⟨false, fun i => i != 0, fun s => if s == "Page" then "b" else "c",
   fun _ => 0, fun _ => false, fun _ => true, fun _ => true⟩

/-! ## Theorems -/

/-- C1: false of the code as the claim stands — a code bug.  With
`enforce_headers` and `assume_headers` on, the header `"resp"` is outside
the vocabulary, so it reaches the vocabulary menu; the user picks
"0. DISCARD THIS COLUMN", `verify_new_column_name` returns `''`, and
`sanitize_csv_column_names` appends that `''` to the sanitized headers
without recording the index as discarded: the function returns header
`[""]`, a retained entry that is neither identifier-safe nor in
`ALLOWED_COLUMN_NAMES`. -/
theorem c1_sanitizer_retains_empty_header_on_vocab_discard :
    sanitizeCsvColumnNames discardForgetOracle false false true true
        ["resp"] [["x"]] []
      = Except.ok (([""], [["x"]]), [])
    ∧ identifierSafe "" = false
    ∧ ALLOWED_COLUMN_NAMES.contains "" = false :=
  ⟨rfl, rfl, rfl⟩

/-- C2: false of the code as the claim stands — a code bug.  A first call
for the raw header `"resp."` where the user discards and asks to remember
returns the discard sentinel `''` and records `remembered[...] = -1`; the
memoized replay then returns `ALLOWED_COLUMN_NAMES[-1]`, which Python's
negative indexing turns into `"filename"`, not the remembered discard. -/
theorem c2_remembered_discard_replays_as_filename :
    verifyNewColumnName discardRememberOracle true "resp." []
      = ("", [("resp.", -1)])
    ∧ verifyNewColumnName discardRememberOracle true "resp." [("resp.", -1)]
      = ("filename", [("resp.", -1)])
    ∧ ("filename" : String) ≠ "" :=
  ⟨rfl, rfl, by decide⟩

/-- C3: false of the code as the claim stands — a code bug.  On the
`assume_headers = False` path with the first row rejected, discarded
indices are recorded against the *original* column numbering but applied
to the shorter renamed header list: discarding column 0 of
`["Name","Page","Cmt"]` and renaming the others makes the per-column loop
skip the renamed `"b"`, and the final removal pops the surviving header
too, returning header `[]` beside rows of length 2 — the shape invariant
`len(row) == len(header)`, true of the input, is broken on the output. -/
theorem c3_reject_path_breaks_shape_invariant :
    sanitizeCsvColumnNames rejectHeadersOracle false false false false
        ["Name", "Page", "Cmt"] [["x", "y", "z"]] []
      = Except.ok ((([] : List String), [["Page", "Cmt"], ["y", "z"]]), [])
    ∧ ([["x", "y", "z"]].all
        (fun r => r.length == ["Name", "Page", "Cmt"].length)) = true
    ∧ ([["Page", "Cmt"], ["y", "z"]].all
        (fun r => r.length == ([] : List String).length)) = false :=
  ⟨rfl, rfl, rfl⟩

/-- C4 counterexample: the claim says the header row is never dropped, but
`prune_empty_csv_rows` filters every line of the file alike — an all-empty
header row is dropped and the first data row becomes the new first line. -/
theorem c4_header_row_is_pruned :
    pruneEmptyCsvRows [["", ""], ["a", "b"]] = [["a", "b"]]
    ∧ (["", ""].all (fun s => s == "")) = true
    ∧ ¬ (["", ""] ∈ pruneEmptyCsvRows [["", ""], ["a", "b"]]) :=
  ⟨rfl, rfl, by decide⟩

/-- C4 amended: a row — the header row included — is dropped if and only
if every cell equals the empty string, and the relative order of kept rows
is preserved (the output is a sublist of the input). -/
theorem c4_amended_prune_iff_all_empty :
    ∀ rows : List (List String),
      List.Sublist (pruneEmptyCsvRows rows) rows
      ∧ (∀ r, r ∈ pruneEmptyCsvRows rows
            ↔ r ∈ rows ∧ ¬ (r.all (fun s => s == "") = true)) := by
  intro rows
  refine ⟨List.filter_sublist _, fun r => ?_⟩
  rw [pruneEmptyCsvRows, List.mem_filter]
  simp

/-- C9 counterexample: on header `["a",""]` and the single row
`["x",""]` the header is already as long as every row, yet
`prune_padding_csv_columns` returns header `["a"]` — its length is not
`max(maxlen, len(header_in)) = 2` and the header did not stay unchanged,
because the function also prunes empty unlabeled columns before
returning. -/
theorem c9_padding_pruner_shrinks_header :
    prunePaddingCsvColumns ["a", ""] [["x", ""]] = Except.ok (["a"], [["x"]])
    ∧ maxRowLen [["x", ""]] ≤ (["a", ""] : List String).length
    ∧ (["a"] : List String).length
        ≠ max (maxRowLen [["x", ""]]) (["a", ""] : List String).length :=
  ⟨rfl, by decide, by decide⟩

/-- C10: on a table with a header row and zero data rows,
`prune_padding_csv_columns` evaluates `max((row for row in rows), key=len)`
on an empty sequence and dies with ValueError instead of returning the
table unchanged. -/
theorem c10_padding_pruner_fails_on_zero_rows :
    ∀ header : List String,
      prunePaddingCsvColumns header []
        = Except.error "ValueError: max() arg is an empty sequence" :=
  fun _ => rfl

/-- The seen-set emission of `dedupSeen` agrees with folding
"append if unseen" from any accumulator that records the same membership. -/
theorem dedupSeen_foldl (l : List String) :
    ∀ (seen acc : List String),
      (∀ x, x ∈ acc ↔ x ∈ seen) →
      acc ++ dedupSeen seen l
        = l.foldl (fun acc x => if acc.contains x then acc else acc ++ [x])
            acc := by
  induction l with
  | nil => intro seen acc _; simp [dedupSeen]
  | cons h t ih =>
      intro seen acc hagree
      by_cases hc : h ∈ seen
      · have h1 : seen.contains h = true := by simp [hc]
        have h2 : acc.contains h = true := by simp [(hagree h).mpr hc]
        simp only [dedupSeen, List.foldl_cons, h1, h2, if_true]
        exact ih seen acc hagree
      · have h1 : seen.contains h = false := by simp [hc]
        have hna : h ∉ acc := fun hx => hc ((hagree h).mp hx)
        have h2 : acc.contains h = false := by simp [hna]
        simp only [dedupSeen, List.foldl_cons, h1, h2, Bool.false_eq_true,
          if_false]
        rw [List.append_cons]
        exact ih (h :: seen) (acc ++ [h])
          (fun x => by
            simp only [List.mem_append, List.mem_singleton, List.mem_cons,
              hagree x]
            tauto)

/-- The code's seen-set deduplication computes exactly the spec's
first-occurrence-order deduplication. -/
theorem headersNoDuplicates_eq_firstOccurrenceDedup (l : List String) :
    headersNoDuplicates l = firstOccurrenceDedup l := by
  have h := dedupSeen_foldl l [] [] (fun _ => Iff.rfl)
  simpa [headersNoDuplicates, firstOccurrenceDedup] using h

/-- Every emitted header comes from the scanned list. -/
theorem mem_dedupSeen (x : String) :
    ∀ (seen l : List String), x ∈ dedupSeen seen l → x ∈ l := by
  intro seen l
  induction l generalizing seen with
  | nil => simp [dedupSeen]
  | cons h t ih =>
      simp only [dedupSeen]
      split
      · intro hx; exact List.mem_cons_of_mem _ (ih _ hx)
      · intro hx
        rcases List.mem_cons.mp hx with rfl | hx
        · exact List.mem_cons_self _ _
        · exact List.mem_cons_of_mem _ (ih _ hx)

/-- C5: the merged header is the first-occurrence-order deduplication of
the concatenation of the (non-excluded) input tables' headers, in file
order. -/
theorem c5_merged_header_is_first_occurrence_dedup
    (files : List CsvFile) (name : String) (header : List String)
    (rows : List (List String))
    (h : mergeAllCsvInDir files = Except.ok (name, header, rows)) :
    header = firstOccurrenceDedup
      (((files.filter (fun f => !nameContainsMerged f.name)).map
          CsvFile.header).flatten) := by
  cases files with
  | nil => exact absurd h (by simp [mergeAllCsvInDir])
  | cons f0 rest =>
      simp only [mergeAllCsvInDir, Except.ok.injEq, Prod.mk.injEq] at h
      obtain ⟨-, hh, -⟩ := h
      rw [← hh, headersNoDuplicates_eq_firstOccurrenceDedup]

/-- C5 witness: merging files with headers `[a,b,c]` and `[b,d]`, in that
order, yields the merged header `[a,b,c,d]`, the first-occurrence-order
deduplication of their concatenation. -/
theorem c5_merge_example :
    (["a", "b", "c", "d"] : List String)
      = firstOccurrenceDedup
          ((([⟨"p_a.csv", ["a", "b", "c"], []⟩,
              ⟨"p_b.csv", ["b", "d"], []⟩] : List CsvFile).filter
              (fun f => !nameContainsMerged f.name)).map
            CsvFile.header).flatten :=
  c5_merged_header_is_first_occurrence_dedup _ _ _ _ rfl

/-- C6 amended: a merge that produces output had a non-empty file list (on
an empty directory the first-filename lookup dies with IndexError before
any output), and every merged header entry comes from a file whose name
does not contain `'merged'` — prior merge outputs are excluded.  When all
CSVs present are prior merge outputs, however, the merge still succeeds
with an empty header (see the counterexample). -/
theorem c6_amended_merge_needs_input_and_excludes_merged
    (files : List CsvFile) (name : String) (header : List String)
    (rows : List (List String))
    (h : mergeAllCsvInDir files = Except.ok (name, header, rows)) :
    files ≠ []
    ∧ ∀ x ∈ header, ∃ f, f ∈ files
        ∧ nameContainsMerged f.name = false ∧ x ∈ f.header := by
  cases files with
  | nil => exact absurd h (by simp [mergeAllCsvInDir])
  | cons f0 rest =>
      refine ⟨by simp, ?_⟩
      simp only [mergeAllCsvInDir, Except.ok.injEq, Prod.mk.injEq] at h
      obtain ⟨-, hh, -⟩ := h
      intro x hx
      rw [← hh] at hx
      simp only [headersNoDuplicates] at hx
      have hx' := mem_dedupSeen x _ _ hx
      rcases List.mem_flatten.mp hx' with ⟨hl, hhl, hxl⟩
      rcases List.mem_map.mp hhl with ⟨f, hf, rfl⟩
      rcases List.mem_filter.mp hf with ⟨hfmem, hfcond⟩
      exact ⟨f, hfmem, by simpa using hfcond, hxl⟩

/-- C6 witness: a concrete merge with one ordinary input file succeeds,
and the amended theorem's conclusions hold of it. -/
theorem c6_merge_example :
    ([⟨"p_a.csv", ["x"], []⟩] : List CsvFile) ≠ []
    ∧ ∀ y ∈ (["x"] : List String),
        ∃ f, f ∈ ([⟨"p_a.csv", ["x"], []⟩] : List CsvFile)
          ∧ nameContainsMerged f.name = false ∧ y ∈ f.header :=
  c6_amended_merge_needs_input_and_excludes_merged _ _ _ _ rfl

/-- C6 counterexample: a directory whose only CSV is a prior merge output
gives an empty input collection, yet the merge does not fail — it opens
the output (here the very same `"proj_merged.csv"` name, derived before
the exclusion) and writes an empty header and no rows. -/
theorem c6_all_merged_inputs_still_write_output :
    mergeAllCsvInDir [⟨"proj_merged.csv", ["a"], [["1"]]⟩]
      = Except.ok ("proj_merged.csv", [], [])
    ∧ ([⟨"proj_merged.csv", ["a"], [["1"]]⟩] : List CsvFile).filter
        (fun f => !nameContainsMerged f.name) = [] :=
  ⟨rfl, rfl⟩

/-- C7 counterexample: a pattern whose named groups include `"bad"`,
outside `{project, page, line}`, raises no error at all when it does not
match the filename — `append_metadata_from_filename` returns the table
unchanged, so the fatal configuration error is neither raised before file
processing nor independent of the match. -/
theorem c7_bad_group_without_match_raises_nothing :
    (⟨["bad"], fun _ => none⟩ : RePattern).groupNames = ["bad"]
    ∧ allowedMetaKeys.contains "bad" = false
    ∧ appendMetadataFromFilename ⟨["bad"], fun _ => none⟩ "f.xlsx"
        ["a"] [["1"]] = Except.ok (["a"], [["1"]]) :=
  ⟨rfl, rfl, rfl⟩

/-- Binding a successful Except computation just applies the
continuation. -/
theorem exc_bind_ok (a : α) (f : α → Except ε β) :
    (Except.ok a >>= f) = f a := rfl

/-- Binding a failed Except computation keeps the error. -/
theorem exc_bind_error (e : ε) (f : α → Except ε β) :
    ((Except.error e : Except ε α) >>= f) = Except.error e := rfl

/-- Binding a pure Except computation just applies the continuation. -/
theorem exc_pure_bind (a : α) (f : α → Except ε β) :
    ((pure a : Except ε α) >>= f) = f a := rfl

/-- Keys after a Python dict assignment: unchanged when the key was
present (values are updated in place), appended otherwise. -/
theorem dictKeys_insert (d : List (String × α)) (k : String) (v : α) :
    dictKeys (dictInsert d k v)
      = if d.any (fun p => p.1 == k) then dictKeys d
        else dictKeys d ++ [k] := by
  simp only [dictInsert, dictKeys]
  split
  · rw [List.map_map]
    apply List.map_congr_left
    intro p _
    by_cases hp : p.1 = k
    · simp [hp]
    · simp [hp]
  · simp

/-- Every key inserted along a fold of dict assignments ends among the
result's keys, as does every key already present. -/
theorem mem_dictKeys_foldl_insert (ps : List (String × α)) :
    ∀ (d : List (String × α)) (k : String),
      (k ∈ dictKeys d ∨ ∃ v, (k, v) ∈ ps) →
      k ∈ dictKeys (ps.foldl (fun d p => dictInsert d p.1 p.2) d) := by
  induction ps with
  | nil =>
      intro d k hk
      rcases hk with hk | ⟨v, hv⟩
      · simpa using hk
      · cases hv
  | cons p ps ih =>
      intro d k hk
      rw [List.foldl_cons]
      apply ih
      rcases hk with hk | ⟨v, hv⟩
      · left
        rw [dictKeys_insert]
        split
        · exact hk
        · exact List.mem_append_left _ hk
      · rcases List.mem_cons.mp hv with heq | hv
        · left
          rw [dictKeys_insert]
          have : k = p.1 := by rw [← heq]
          split
          · next hany =>
              rcases List.any_eq_true.mp hany with ⟨q, hq, hq1⟩
              subst this
              exact List.mem_map.mpr ⟨q, hq, eq_of_beq hq1⟩
          · exact List.mem_append_right _ (by simp [this])
        · exact Or.inr ⟨v, hv⟩

/-- C7 amended: the `{project, page, line}` group check lives inside
`append_metadata_from_filename` and runs only after a successful match of
that one file's name: on no match the function returns the table unchanged
without looking at the groups, and on a match whose (lowercased) group
names include one outside the allowed three it raises KeyError — during
that file's metadata stage, not before file processing begins. -/
theorem c7_amended_group_check_only_on_match
    (p : RePattern) (xlsxName : String) (header : List String)
    (rows : List (List String)) (gd : List (String × String)) :
    (p.matchFn xlsxName = none →
      appendMetadataFromFilename p xlsxName header rows
        = Except.ok (header, rows))
    ∧ (p.matchFn xlsxName = some gd →
      (∃ kv, kv ∈ gd ∧ allowedMetaKeys.contains (pyLower kv.1) = false) →
      appendMetadataFromFilename p xlsxName header rows
        = Except.error "KeyError") := by
  constructor
  · intro hm
    simp [appendMetadataFromFilename, hm]
  · rintro hm ⟨kv, hkv, hbad⟩
    simp only [appendMetadataFromFilename, hm]
    have hkey : pyLower kv.1
        ∈ dictKeys (dictOfPairs (gd.map (fun kv => (pyLower kv.1, kv.2)))) := by
      simp only [dictOfPairs]
      exact mem_dictKeys_foldl_insert _ _ _
        (Or.inr ⟨kv.2, List.mem_map.mpr ⟨kv, hkv, rfl⟩⟩)
    rcases List.mem_map.mp hkey with ⟨q, hq, hq1⟩
    have hany : (dictOfPairs (gd.map (fun kv => (pyLower kv.1, kv.2)))).any
        (fun kv => !(allowedMetaKeys.contains kv.1)) = true :=
      List.any_eq_true.mpr ⟨q, hq, by
        have hnb : pyLower kv.1 ∉ allowedMetaKeys := by simpa using hbad
        simp [hq1, hnb]⟩
    rw [if_pos hany]

/-- C7 witness: with a pattern that does match and carries the group
`"bad"`, the KeyError is raised (at the metadata stage). -/
theorem c7_group_check_example :
    appendMetadataFromFilename
      ⟨["bad"], fun _ => some [("bad", "v")]⟩ "f.xlsx" ["a"] [["1"]]
      = Except.error "KeyError" :=
  (c7_amended_group_check_only_on_match _ _ _ _ [("bad", "v")]).2 rfl
    ⟨("bad", "v"), by simp, rfl⟩

/-- Popping an index never lengthens a list. -/
theorem pyPop_length_le {l l' : List α} {i : Nat}
    (h : pyPop l i = Except.ok l') : l'.length ≤ l.length := by
  unfold pyPop at h
  split at h
  · cases h
    exact (List.eraseIdx_sublist _ _).length_le
  · cases h

/-- Popping a descending run of indices never lengthens a list. -/
theorem foldlM_pyPop_length_le (idxs : List Nat) :
    ∀ (l l' : List α), idxs.foldlM pyPop l = Except.ok l' →
      l'.length ≤ l.length := by
  induction idxs with
  | nil =>
      intro l l' h
      cases h
      exact le_rfl
  | cons i is ih =>
      intro l l' h
      rw [List.foldlM_cons] at h
      cases hp : pyPop l i with
      | error e => rw [hp, exc_bind_error] at h; cases h
      | ok x =>
          rw [hp, exc_bind_ok] at h
          exact le_trans (ih x l' h) (pyPop_length_le hp)

/-- C9 amended: after the padding step of `prune_padding_csv_columns` the
header length is exactly `max(maxlen, len(header_in))`, and the padding
step leaves a header that is already at least as long as every row
unchanged; the function then additionally prunes empty unlabeled columns,
so the header it returns is never longer than the padded one (and can be
shorter — see the counterexample). -/
theorem c9_amended_padding_then_pruning
    (header : List String) (rows : List (List String)) :
    (padHeaders header rows).length = max (maxRowLen rows) header.length
    ∧ (maxRowLen rows ≤ header.length → padHeaders header rows = header)
    ∧ (∀ outH outR, prunePaddingCsvColumns header rows
          = Except.ok (outH, outR) →
        outH.length ≤ (padHeaders header rows).length) := by
  refine ⟨?_, ?_, ?_⟩
  · simp only [padHeaders, List.length_append, List.length_replicate]
    omega
  · intro hle
    simp [padHeaders, Nat.sub_eq_zero_of_le hle]
  · intro outH outR h
    simp only [prunePaddingCsvColumns] at h
    split at h
    · cases h
    · cases he : emptyUnlabeledIndices (padHeaders header rows) rows with
      | error e => rw [he, exc_bind_error] at h; cases h
      | ok empties =>
          rw [he, exc_bind_ok] at h
          cases hh : empties.reverse.foldlM pyPop (padHeaders header rows) with
          | error e => rw [hh, exc_bind_error] at h; cases h
          | ok nh =>
              rw [hh, exc_bind_ok] at h
              cases hr : rows.mapM
                  (fun r => empties.reverse.foldlM pyPop r) with
              | error e => rw [hr, exc_bind_error] at h; cases h
              | ok nr =>
                  rw [hr, exc_bind_ok] at h
                  cases h
                  exact foldlM_pyPop_length_le _ _ _ hh

/-- Assigning a key makes it retrievable with its new value. -/
theorem dictGet_insert_self (d : List (String × α)) (k : String) (v : α) :
    dictGet (dictInsert d k v) k = some v := by
  simp only [dictInsert, dictGet]
  split
  · next hany =>
      rw [List.find?_map]
      have hpred : ((fun q : String × α => q.1 == k) ∘
            (fun p => if p.1 == k then (k, v) else p))
          = (fun p : String × α => p.1 == k) := by
        funext p
        by_cases hp : p.1 = k
        · simp [hp]
        · simp [hp]
      rw [hpred]
      rcases List.any_eq_true.mp hany with ⟨p, hp, hpk⟩
      have hsome : (d.find? (fun p => p.1 == k)).isSome :=
        List.find?_isSome.mpr ⟨p, hp, hpk⟩
      rcases Option.isSome_iff_exists.mp hsome with ⟨q, hq⟩
      have hqk := List.find?_some hq
      rw [hq]
      simp [eq_of_beq hqk]
  · next hany =>
      rw [List.find?_append]
      have hnone : d.find? (fun p => p.1 == k) = none := by
        rw [List.find?_eq_none]
        intro p hp
        by_contra hc
        exact hany (List.any_eq_true.mpr ⟨p, hp, by simpa using hc⟩)
      rw [hnone]
      simp

/-- Assigning a key leaves every other key's value alone. -/
theorem dictGet_insert_other (d : List (String × α)) (k k' : String) (v : α)
    (hne : k' ≠ k) : dictGet (dictInsert d k v) k' = dictGet d k' := by
  simp only [dictInsert, dictGet]
  split
  · rw [List.find?_map]
    have hpred : ((fun q : String × α => q.1 == k') ∘
          (fun p => if p.1 == k then (k, v) else p))
        = (fun p : String × α => p.1 == k') := by
      funext p
      by_cases hp : p.1 = k
      · simp [hp, show ¬ (k = k') from fun h => hne h.symm]
      · simp [hp]
    rw [hpred]
    cases hf : d.find? (fun p => p.1 == k') with
    | none => simp
    | some q =>
        have hqk := List.find?_some hf
        have hqne : ¬ (q.1 = k) := by
          intro hqk2
          exact hne (by rw [← eq_of_beq hqk, hqk2])
        simp [hqne]
  · rw [List.find?_append]
    cases hf : d.find? (fun p => p.1 == k') with
    | none => simp [show ¬ (k = k') from fun h => hne h.symm]
    | some q => simp

/-- The membership probe of `dictInsert` agrees with key membership. -/
theorem dict_any_iff_mem_keys (d : List (String × α)) (k : String) :
    d.any (fun p => p.1 == k) = true ↔ k ∈ dictKeys d := by
  rw [List.any_eq_true]
  constructor
  · rintro ⟨p, hp, hpk⟩
    exact List.mem_map.mpr ⟨p, hp, eq_of_beq hpk⟩
  · intro hk
    rcases List.mem_map.mp hk with ⟨p, hp, hpk⟩
    exact ⟨p, hp, by simp [hpk]⟩

/-- A retrievable key is among the keys. -/
theorem mem_keys_of_dictGet_some (d : List (String × α)) (k : String) (v : α)
    (h : dictGet d k = some v) : k ∈ dictKeys d := by
  simp only [dictGet] at h
  cases hf : d.find? (fun p => p.1 == k) with
  | none => rw [hf] at h; cases h
  | some q =>
      have hq := List.mem_of_find?_eq_some hf
      have hqk := List.find?_some hf
      exact List.mem_map.mpr ⟨q, hq, eq_of_beq hqk⟩

/-- A key among the keys is retrievable. -/
theorem dictGet_isSome_of_mem_keys (d : List (String × α)) (k : String)
    (h : k ∈ dictKeys d) : (dictGet d k).isSome := by
  rcases List.mem_map.mp h with ⟨p, hp, hpk⟩
  have hs : (d.find? (fun p => p.1 == k)).isSome :=
    List.find?_isSome.mpr ⟨p, hp, by simp [hpk]⟩
  rcases Option.isSome_iff_exists.mp hs with ⟨q, hq⟩
  simp [dictGet, hq]

/-- A key not among the keys retrieves nothing. -/
theorem dictGet_none_of_not_mem_keys (d : List (String × α)) (k : String)
    (h : ¬ k ∈ dictKeys d) : dictGet d k = none := by
  have hf : d.find? (fun p => p.1 == k) = none := by
    rw [List.find?_eq_none]
    intro p hp hc
    exact h (List.mem_map.mpr ⟨p, hp, eq_of_beq hc⟩)
  simp [dictGet, hf]

/-- Assigning a present key keeps the key list unchanged. -/
theorem dictKeys_insert_of_mem (d : List (String × α)) (k : String) (v : α)
    (h : k ∈ dictKeys d) : dictKeys (dictInsert d k v) = dictKeys d := by
  rw [dictKeys_insert, if_pos ((dict_any_iff_mem_keys d k).mpr h)]

/-- Folding dict assignments keeps the keys duplicate-free. -/
theorem dictKeys_nodup_foldl (ps : List (String × α)) :
    ∀ d : List (String × α), (dictKeys d).Nodup →
      (dictKeys (ps.foldl (fun d p => dictInsert d p.1 p.2) d)).Nodup := by
  induction ps with
  | nil => intro d hd; simpa using hd
  | cons p ps ih =>
      intro d hd
      rw [List.foldl_cons]
      apply ih
      rw [dictKeys_insert]
      split
      · exact hd
      · next hany =>
          have hnm : ¬ p.1 ∈ dictKeys d := by
            intro hm
            exact hany ((dict_any_iff_mem_keys d p.1).mpr hm)
          simp [List.nodup_append, hd, hnm]

/-- The keys of a Python dict built from pairs are duplicate-free. -/
theorem dictKeys_nodup_dictOfPairs (ps : List (String × α)) :
    (dictKeys (dictOfPairs ps)).Nodup := by
  simpa [dictOfPairs] using dictKeys_nodup_foldl ps [] (by simp [dictKeys])

/-- Every key of a fold of dict assignments comes from the start dict or
from the assigned pairs. -/
theorem mem_dictKeys_foldl_insert_sub (ps : List (String × α)) :
    ∀ (d : List (String × α)) (k : String),
      k ∈ dictKeys (ps.foldl (fun d p => dictInsert d p.1 p.2) d) →
      k ∈ dictKeys d ∨ k ∈ ps.map Prod.fst := by
  induction ps with
  | nil => intro d k h; exact Or.inl (by simpa using h)
  | cons p ps ih =>
      intro d k h
      rw [List.foldl_cons] at h
      rcases ih _ _ h with hk | hk
      · rw [dictKeys_insert] at hk
        split at hk
        · exact Or.inl hk
        · rcases List.mem_append.mp hk with h1 | h1
          · exact Or.inl h1
          · exact Or.inr (List.mem_cons.mpr
              (Or.inl (by simpa using h1)))
      · exact Or.inr (List.mem_cons.mpr (Or.inr hk))

/-- A conditional sentinel update never changes the key list. -/
theorem dictKeys_condUpdate (d : List (String × String)) (key val : String) :
    dictKeys (condUpdate d key val) = dictKeys d := by
  unfold condUpdate
  cases hg : dictGet d key with
  | none => rfl
  | some v =>
      by_cases hv : v = ""
      · simp only [hv, beq_self_eq_true, if_true]
        exact dictKeys_insert_of_mem _ _ _ (mem_keys_of_dictGet_some _ _ _ hg)
      · simp [hv]

/-- A conditional sentinel update leaves other keys' values alone. -/
theorem dictGet_condUpdate_other (d : List (String × String))
    (key val k : String) (hne : k ≠ key) :
    dictGet (condUpdate d key val) k = dictGet d k := by
  unfold condUpdate
  cases hg : dictGet d key with
  | none => rfl
  | some v =>
      by_cases hv : v = ""
      · simp only [hv, beq_self_eq_true, if_true]
        exact dictGet_insert_other _ _ _ _ hne
      · simp [hv]

/-- A conditional sentinel update on a present key: the sentinel replaces
an empty value and a non-empty value stays. -/
theorem dictGetD_condUpdate_self (d : List (String × String))
    (key val : String) (h : key ∈ dictKeys d) :
    dictGetD (condUpdate d key val) key ""
      = if dictGetD d key "" == "" then val else dictGetD d key "" := by
  rcases Option.isSome_iff_exists.mp (dictGet_isSome_of_mem_keys d key h)
    with ⟨v, hv⟩
  unfold condUpdate
  rw [hv]
  by_cases hv0 : v = ""
  · subst hv0
    simp [dictGetD, dictGet_insert_self, hv]
  · simp [dictGetD, hv, hv0]

/-- Both sentinel updates never change the key list. -/
theorem dictKeys_applySentinels (d : List (String × String)) :
    dictKeys (applySentinels d) = dictKeys d := by
  unfold applySentinels
  rw [dictKeys_condUpdate, dictKeys_condUpdate]

/-- On a present key, the sentinel pass computes exactly
`sentinelValue`. -/
theorem dictGetD_applySentinels (d : List (String × String)) (k : String)
    (hk : k ∈ dictKeys d) :
    dictGetD (applySentinels d) k "" = sentinelValue k (dictGetD d k "") := by
  unfold applySentinels sentinelValue
  by_cases hr : k = "response"
  · subst hr
    have hstep : dictGetD (condUpdate (condUpdate d "response" "NR")
          "phonetic_transcription" "see field pages") "response" ""
        = dictGetD (condUpdate d "response" "NR") "response" "" := by
      simp [dictGetD, dictGet_condUpdate_other _ _ _ _
        (by decide : ("response" : String) ≠ "phonetic_transcription")]
    rw [hstep, dictGetD_condUpdate_self d "response" "NR" hk]
    by_cases hv : dictGetD d "response" "" = "" <;> simp [hv]
  · by_cases hp : k = "phonetic_transcription"
    · subst hp
      have hk1 : "phonetic_transcription"
          ∈ dictKeys (condUpdate d "response" "NR") := by
        rw [dictKeys_condUpdate]; exact hk
      rw [dictGetD_condUpdate_self _ _ _ hk1]
      have hstep : dictGetD (condUpdate d "response" "NR")
            "phonetic_transcription" ""
          = dictGetD d "phonetic_transcription" "" := by
        simp [dictGetD, dictGet_condUpdate_other _ _ _ _
          (by decide : ("phonetic_transcription" : String) ≠ "response")]
      rw [hstep]
      by_cases hv : dictGetD d "phonetic_transcription" "" = "" <;>
        simp [hv]
    · have hgets : dictGet (condUpdate (condUpdate d "response" "NR")
            "phonetic_transcription" "see field pages") k = dictGet d k := by
        rw [dictGet_condUpdate_other _ _ _ _ hp,
          dictGet_condUpdate_other _ _ _ _ hr]
      simp [dictGetD, hgets, hr, hp]

/-- Adding fresh keys with blank values: the new keys read `""`, present
keys keep their values. -/
theorem dictGet_foldl_insert_blank (new : List String) :
    ∀ (d : List (String × String)) (k : String),
      (∀ n ∈ new, ¬ n ∈ dictKeys d) → new.Nodup →
      dictGet (new.foldl (fun d h => dictInsert d h "") d) k
        = if k ∈ new then some "" else dictGet d k := by
  induction new with
  | nil => intro d k _ _; simp
  | cons n ns ih =>
      intro d k hnew hnd
      rw [List.foldl_cons]
      have hn_ns : ¬ n ∈ ns := (List.nodup_cons.mp hnd).1
      have hstep : ∀ m ∈ ns, ¬ m ∈ dictKeys (dictInsert d n "") := by
        intro m hm hmem
        rw [dictKeys_insert] at hmem
        split at hmem
        · exact hnew m (List.mem_cons_of_mem _ hm) hmem
        · rcases List.mem_append.mp hmem with h1 | h1
          · exact hnew m (List.mem_cons_of_mem _ hm) h1
          · exact hn_ns ((List.mem_singleton.mp h1) ▸ hm)
      rw [ih _ k hstep (List.nodup_cons.mp hnd).2]
      by_cases hk : k ∈ ns
      · simp [hk, List.mem_cons.mpr (Or.inr hk)]
      · by_cases hkn : k = n
        · subst hkn
          simp [hk, dictGet_insert_self]
        · simp [hk, hkn, dictGet_insert_other _ _ _ _ hkn]

/-- Keys after adding blank columns come from the dict or from the added
list. -/
theorem mem_dictKeys_foldl_blank_sub (new : List String) :
    ∀ (d : List (String × String)) (k : String),
      k ∈ dictKeys (new.foldl (fun d h => dictInsert d h "") d) →
      k ∈ dictKeys d ∨ k ∈ new := by
  induction new with
  | nil => intro d k h; exact Or.inl (by simpa using h)
  | cons n ns ih =>
      intro d k h
      rw [List.foldl_cons] at h
      rcases ih _ _ h with hk | hk
      · rw [dictKeys_insert] at hk
        split at hk
        · exact Or.inl hk
        · rcases List.mem_append.mp hk with h1 | h1
          · exact Or.inl h1
          · exact Or.inr (List.mem_cons.mpr (Or.inl (by simpa using h1)))
      · exact Or.inr (List.mem_cons.mpr (Or.inr hk))

/-- The `allowed_headers.remove(...)` loop succeeds on duplicate-free keys
drawn from the vocabulary, leaving the vocabulary entries that were not
present, in vocabulary order. -/
theorem removeAll_eq_filter :
    ∀ (ks acc : List String), ks.Nodup → acc.Nodup →
      (∀ k ∈ ks, k ∈ acc) →
      removeAll acc ks
        = Except.ok (acc.filter (fun a => !(ks.contains a))) := by
  intro ks
  induction ks with
  | nil =>
      intro acc _ _ _
      simp [removeAll]
  | cons k ks ih =>
      intro acc hknd hand hsub
      have hk : k ∈ acc := hsub k (List.mem_cons_self _ _)
      rw [removeAll, if_pos (by simp [hk])]
      have hknotks : ¬ k ∈ ks := (List.nodup_cons.mp hknd).1
      rw [ih (acc.erase k) (List.nodup_cons.mp hknd).2 (hand.erase _)
        (fun k' hk' => by
          rw [List.mem_erase_of_ne (fun he : k' = k => hknotks (he ▸ hk'))]
          exact hsub k' (List.mem_cons_of_mem _ hk'))]
      congr 1
      rw [hand.erase_eq_filter, List.filter_filter]
      apply List.filter_congr
      intro a _
      by_cases hak : a = k
      · subst hak; simp
      · simp [hak]

/-- Mapping a fallible function that succeeds pointwise succeeds with the
pointwise results. -/
theorem mapM_ok_of_pointwise (g : α → Except ε β) (f : α → β) :
    ∀ l : List α, (∀ x ∈ l, g x = Except.ok (f x)) →
      l.mapM g = Except.ok (l.map f) := by
  intro l
  induction l with
  | nil => intro _; rfl
  | cons x xs ih =>
      intro h
      rw [List.mapM_cons, h x (List.mem_cons_self _ _), exc_bind_ok,
        ih (fun y hy => h y (List.mem_cons_of_mem _ hy)), exc_bind_ok]
      rfl

/-- One row of the Missing-Value Filler under `enforce_headers`, for a
vocabulary-conformant header and a shape-conformant row: the output row
lists, in vocabulary order, every column's (sentinel-filled) value. -/
theorem fillRow_true_eq (header : List String) (r : List String)
    (hsub : ∀ h ∈ header, h ∈ ALLOWED_COLUMN_NAMES)
    (hlen : r.length = header.length) :
    fillRow true ALLOWED_COLUMN_NAMES header r
      = Except.ok (ALLOWED_COLUMN_NAMES.map (fun k =>
          sentinelValue k (dictGetD (dictOfZip header r) k ""))) := by
  have hmapfst : (header.zip r).map Prod.fst = header :=
    List.map_fst_zip _ _ (le_of_eq hlen.symm)
  have hkeysub : ∀ k ∈ dictKeys (dictOfZip header r),
      k ∈ ALLOWED_COLUMN_NAMES := by
    intro k hk
    rcases mem_dictKeys_foldl_insert_sub _ _ _
        (by simpa [dictOfZip, dictOfPairs] using hk) with h1 | h1
    · simp [dictKeys] at h1
    · exact hsub k (hmapfst ▸ h1)
  have hknodup : (dictKeys (dictOfZip header r)).Nodup := by
    simpa [dictOfZip] using dictKeys_nodup_dictOfPairs (header.zip r)
  have hvocnodup : ALLOWED_COLUMN_NAMES.Nodup := by decide
  have hremove := removeAll_eq_filter (dictKeys (dictOfZip header r))
    ALLOWED_COLUMN_NAMES hknodup hvocnodup hkeysub
  have hremnew : ∀ n ∈ ALLOWED_COLUMN_NAMES.filter
        (fun a => !((dictKeys (dictOfZip header r)).contains a)),
      ¬ n ∈ dictKeys (dictOfZip header r) := by
    intro n hn
    have := (List.mem_filter.mp hn).2
    simpa using this
  have hget1 : ∀ k, dictGet ((ALLOWED_COLUMN_NAMES.filter
        (fun a => !((dictKeys (dictOfZip header r)).contains a))).foldl
      (fun d h => dictInsert d h "") (dictOfZip header r)) k
      = if k ∈ ALLOWED_COLUMN_NAMES.filter
          (fun a => !((dictKeys (dictOfZip header r)).contains a))
        then some "" else dictGet (dictOfZip header r) k :=
    fun k => dictGet_foldl_insert_blank _ (dictOfZip header r) k hremnew
      (hvocnodup.filter _)
  simp only [fillRow, if_true, hremove, exc_bind_ok]
  have hpoint : ∀ k ∈ ALLOWED_COLUMN_NAMES,
      dictGetD (applySentinels
        ((ALLOWED_COLUMN_NAMES.filter
            (fun a => !((dictKeys (dictOfZip header r)).contains a))).foldl
          (fun d h => dictInsert d h "") (dictOfZip header r))) k ""
        = sentinelValue k (dictGetD (dictOfZip header r) k "") := by
    intro k hkA
    by_cases hk0 : k ∈ dictKeys (dictOfZip header r)
    · have hknotrem : ¬ k ∈ ALLOWED_COLUMN_NAMES.filter
          (fun a => !((dictKeys (dictOfZip header r)).contains a)) := by
        intro hr'
        exact hremnew k hr' hk0
      obtain ⟨v, hv⟩ := Option.isSome_iff_exists.mp
        (dictGet_isSome_of_mem_keys _ _ hk0)
      have hg1 : dictGet ((ALLOWED_COLUMN_NAMES.filter
            (fun a => !((dictKeys (dictOfZip header r)).contains a))).foldl
          (fun d h => dictInsert d h "") (dictOfZip header r)) k = some v := by
        rw [hget1 k, if_neg hknotrem]; exact hv
      rw [dictGetD_applySentinels _ _ (mem_keys_of_dictGet_some _ _ _ hg1)]
      unfold dictGetD
      rw [hg1, hv]
    · have hkrem : k ∈ ALLOWED_COLUMN_NAMES.filter
          (fun a => !((dictKeys (dictOfZip header r)).contains a)) :=
        List.mem_filter.mpr ⟨hkA, by simpa using hk0⟩
      have hg1 : dictGet ((ALLOWED_COLUMN_NAMES.filter
            (fun a => !((dictKeys (dictOfZip header r)).contains a))).foldl
          (fun d h => dictInsert d h "") (dictOfZip header r)) k
          = some "" := by
        rw [hget1 k, if_pos hkrem]
      rw [dictGetD_applySentinels _ _ (mem_keys_of_dictGet_some _ _ _ hg1)]
      have hg0 := dictGet_none_of_not_mem_keys _ _ hk0
      unfold dictGetD
      rw [hg1, hg0]
      rfl
  have hanyfalse : (applySentinels
      ((ALLOWED_COLUMN_NAMES.filter
          (fun a => !((dictKeys (dictOfZip header r)).contains a))).foldl
        (fun d h => dictInsert d h "") (dictOfZip header r))).any
      (fun kv => !(ALLOWED_COLUMN_NAMES.contains kv.1)) = false := by
    rw [List.any_eq_false]
    intro kv hkv
    have hmem : kv.1 ∈ ALLOWED_COLUMN_NAMES := by
      have hkeys : kv.1 ∈ dictKeys (applySentinels _) :=
        List.mem_map.mpr ⟨kv, hkv, rfl⟩
      rw [dictKeys_applySentinels] at hkeys
      rcases mem_dictKeys_foldl_blank_sub _ _ _ hkeys with h1 | h1
      · exact hkeysub _ h1
      · exact (List.mem_filter.mp h1).1
    simp [hmem]
  rw [exc_pure_bind]
  simp only [hanyfalse, Bool.false_eq_true, if_false]
  exact congrArg Except.ok (List.map_congr_left hpoint)

/-- One row of the Missing-Value Filler without `enforce_headers`, for a
shape-conformant row: only the sentinels are applied and the columns keep
the table's own header order; absent fields stay absent. -/
theorem fillRow_false_eq (header : List String) (r : List String)
    (hlen : r.length = header.length) :
    fillRow false header header r
      = Except.ok (header.map (fun k =>
          sentinelValue k (dictGetD (dictOfZip header r) k ""))) := by
  have hmapfst : (header.zip r).map Prod.fst = header :=
    List.map_fst_zip _ _ (le_of_eq hlen.symm)
  have hkeysub : ∀ k ∈ dictKeys (dictOfZip header r), k ∈ header := by
    intro k hk
    rcases mem_dictKeys_foldl_insert_sub _ _ _
        (by simpa [dictOfZip, dictOfPairs] using hk) with h1 | h1
    · simp [dictKeys] at h1
    · exact hmapfst ▸ h1
  have hpresent : ∀ k ∈ header, k ∈ dictKeys (dictOfZip header r) := by
    intro k hk
    have hk' : k ∈ (header.zip r).map Prod.fst := by rw [hmapfst]; exact hk
    rcases List.mem_map.mp hk' with ⟨p, hp, hpk⟩
    have : (k, p.2) ∈ header.zip r := by
      rw [show (k, p.2) = p from Prod.ext hpk.symm rfl]
      exact hp
    exact mem_dictKeys_foldl_insert (header.zip r) [] k (Or.inr ⟨p.2, this⟩)
  have hanyfalse : (applySentinels (dictOfZip header r)).any
      (fun kv => !(header.contains kv.1)) = false := by
    rw [List.any_eq_false]
    intro kv hkv
    have hkeys : kv.1 ∈ dictKeys (applySentinels (dictOfZip header r)) :=
      List.mem_map.mpr ⟨kv, hkv, rfl⟩
    rw [dictKeys_applySentinels] at hkeys
    simp [hkeysub _ hkeys]
  simp only [fillRow, Bool.false_eq_true, if_false, exc_pure_bind]
  simp only [hanyfalse, Bool.false_eq_true, if_false]
  refine congrArg Except.ok (List.map_congr_left fun k hk => ?_)
  exact dictGetD_applySentinels _ _ (hpresent k hk)

/-- C8 amended: for a table whose header names all belong to the
vocabulary and whose rows match the header in length, the filler with
`enforce_headers` returns the vocabulary as the header, in canonical
order, and each row carries every vocabulary column's value — the value
from the table where the column was present, `""` where it was absent —
with an empty `response` becoming `"NR"` and an empty
`phonetic_transcription` becoming `"see field pages"`; without
`enforce_headers` the header and columns stay the table's own, only the
sentinels are applied, and absent fields stay absent.  (A header name
outside the vocabulary instead raises ValueError — see the
counterexample.) -/
theorem c8_amended_fill_closed_form (header : List String)
    (rows : List (List String))
    (hsub : ∀ h ∈ header, h ∈ ALLOWED_COLUMN_NAMES)
    (hshape : ∀ r ∈ rows, r.length = header.length) :
    (fillInMissingEntries true header rows
       = Except.ok (ALLOWED_COLUMN_NAMES, rows.map (fun r =>
           ALLOWED_COLUMN_NAMES.map (fun k =>
             sentinelValue k (dictGetD (dictOfZip header r) k "")))))
    ∧ (fillInMissingEntries false header rows
       = Except.ok (header, rows.map (fun r =>
           header.map (fun k =>
             sentinelValue k (dictGetD (dictOfZip header r) k ""))))) := by
  constructor
  · simp only [fillInMissingEntries, if_true]
    rw [mapM_ok_of_pointwise _ _ rows
      (fun r hr => fillRow_true_eq header r hsub (hshape r hr)), exc_bind_ok]
    rfl
  · simp only [fillInMissingEntries, Bool.false_eq_true, if_false]
    rw [mapM_ok_of_pointwise _ _ rows
      (fun r hr => fillRow_false_eq header r (hshape r hr)), exc_bind_ok]
    rfl

/-- C8 witness: the closed form at a concrete table — header
`["response"]`, one row `[""]` — for both settings of
`enforce_headers`. -/
theorem c8_fill_example :
    (fillInMissingEntries true ["response"] [[""]]
       = Except.ok (ALLOWED_COLUMN_NAMES, [[""]].map (fun r =>
           ALLOWED_COLUMN_NAMES.map (fun k =>
             sentinelValue k (dictGetD (dictOfZip ["response"] r) k "")))))
    ∧ (fillInMissingEntries false ["response"] [[""]]
       = Except.ok (["response"], [[""]].map (fun r =>
           ["response"].map (fun k =>
             sentinelValue k (dictGetD (dictOfZip ["response"] r) k ""))))) :=
  c8_amended_fill_closed_form ["response"] [[""]] (by decide) (by decide)

/-- C8 counterexample: on a table whose header holds a name outside the
vocabulary, `fill_in_missing_entries` with `enforce_headers` does not add
the missing vocabulary columns — `allowed_headers.remove('foo')` raises
ValueError. -/
theorem c8_foreign_header_raises_value_error :
    fillInMissingEntries true ["foo"] [["x"]]
      = Except.error "ValueError: list.remove(x): x not in list"
    ∧ ALLOWED_COLUMN_NAMES.contains "foo" = false :=
  ⟨rfl, rfl⟩

end LAP
